import Mathlib

/-!
Verification development for the py-parser service (`src/app.py`).

The Python program parses Python source into `ast` trees and converts them
into nested report dictionaries (`defaultdict(list)` accumulators) via an
`ast.NodeVisitor` subclass `Analyzer`.  This file gives a shallow embedding:

* `Ast` embeds the fragment of Python's abstract syntax that the program's
  behaviour depends on (one inductive, like Python's single `AST` class).
* `JVal` / `Obj` embed JSON-like Python values and insertion-ordered
  dictionaries (Python dicts preserve insertion order).
* `visit` embeds `Analyzer.visit`: `ast.NodeVisitor.visit` dispatches to
  `visit_<Kind>` when the `Analyzer` defines one and otherwise falls back to
  `ast.NodeVisitor.generic_visit`, which visits every child node in field
  order.  The arms below for node kinds without a `visit_<Kind>` method are
  the unfolding of `generic_visit` at that kind.
* `processRegularFile`, `processDirectory`, `parseSourceFile`, `processUrl`
  embed the file/directory/URL handling, with the external collaborators
  (filesystem, `ast.parse` front-end, `git` clone) supplied as oracles.
-/

namespace PyParser

/-- Expression context of a Python `Name` node (`ast.Load`, `ast.Store`,
`ast.Del`). -/
inductive Ctx where
  | load
  | store
  | del
deriving DecidableEq, Repr

/-- JSON-like Python runtime values stored inside report dictionaries.
`ctx` stands for a raw `ast` context object (`Load()` / `Store()` / `Del()`),
which `visit_Name` stores verbatim and which is not JSON-serializable. -/
inductive JVal where
  | null : JVal
  | str : String → JVal
  | int : Int → JVal
  | arr : List JVal → JVal
  | obj : List (String × JVal) → JVal
  | ctx : Ctx → JVal

/-- An insertion-ordered Python dictionary with string keys. -/
abbrev Obj := List (String × JVal)

/-- Dictionary assignment `d[k] = v`: overwrite in place when the key exists,
otherwise insert at the end (Python dicts preserve insertion order). -/
def setKey : Obj → String → JVal → Obj
  | [], k, v => [(k, v)]
  | (k', w) :: rest, k, v =>
      if k' = k then (k, v) :: rest else (k', w) :: setKey rest k v

/-- The `defaultdict(list)` operation `d[k].append(v)`: a missing key is
created as a fresh one-element list at the end; an existing list gets `v`
appended in place.  In the analyzer a key only ever holds a list when it is
appended to, so the non-list arm is unreachable. -/
def appendKey : Obj → String → JVal → Obj
  | [], k, v => [(k, JVal.arr [v])]
  | (k', w) :: rest, k, v =>
      if k' = k then
        match w with
        | JVal.arr xs => (k, JVal.arr (xs ++ [v])) :: rest
        | _ => (k', w) :: rest
      else (k', w) :: appendKey rest k v

/-- Dictionary lookup returning `none` when the key is absent. -/
def lookupKey (k : String) : Obj → Option JVal
  | [] => none
  | (k', v) :: rest => if k' = k then some v else lookupKey k rest

/-- The keys of a dictionary in insertion order (hence in `json.dumps`
serialization order). -/
def keysOf (o : Obj) : List String := o.map Prod.fst

/-- The fragment of Python abstract syntax the analyzer's behaviour depends
on.  Python's `ast` is a single open class hierarchy; we embed it as one
inductive.  Children are listed in the order of each node's `_fields`, which
is the order `ast.iter_fields` (and hence `generic_visit`) traverses them.
`functionDef`'s `args` abbreviates `arguments.args` (the positional
parameters), the only part of the `arguments` node the program reads. -/
inductive Ast where
  | module (body : List Ast)
  | importStmt (names : List String)
  | importFrom (names : List String)
  | classDef (name : String) (bases : List Ast) (body : List Ast)
  | functionDef (name : String) (args : List String) (body : List Ast)
  | exprStmt (value : Ast)
  | assign (targets : List Ast) (value : Ast)
  | ifStmt (test : Ast) (body : List Ast) (orelse : List Ast)
  | forStmt (target : Ast) (iter : Ast) (body : List Ast) (orelse : List Ast)
  | whileStmt (test : Ast) (body : List Ast) (orelse : List Ast)
  | returnStmt (value : Option Ast)
  | passStmt
  | nameExpr (id : String) (ctx : Ctx)
  | attributeExpr (value : Ast) (attr : String) (ctx : Ctx)
  | callExpr (func : Ast) (args : List Ast) (keywords : List (Option String × Ast))
  | numExpr (n : Int)
  | strExpr (s : String)
  | binOp (left : Ast) (right : Ast)

/-- Base-class extraction in `visit_ClassDef`: a `Name` base contributes its
`id`, an `Attribute` base its final segment `attr`, anything else is
skipped. -/
def baseName : Ast → Option JVal
  | Ast.nameExpr id _ => some (JVal.str id)
  | Ast.attributeExpr _ attr _ => some (JVal.str attr)
  | _ => none

/-- Callee extraction in `visit_Call`: `node['func']` is set from a `Name`
func's `id` or an `Attribute` func's `attr`; for any other callee shape the
`func` key is never written. -/
def setFunc (n : Obj) : Ast → Obj
  | Ast.nameExpr id _ => setKey n "func" (JVal.str id)
  | Ast.attributeExpr _ attr _ => setKey n "func" (JVal.str attr)
  | _ => n

/-- A keyword argument's contribution: `keyword.arg` is the keyword name, or
Python `None` for a `**kwargs` splat; the keyword's value is dropped. -/
def kwName : Option String × Ast → JVal
  | (some s, _) => JVal.str s
  | (none, _) => JVal.null

mutual

/-- `Analyzer.visit` (≅ `parse_node(ast_node, node)`): dispatch on the node
kind; `visit_<Kind>` arms for Import/ImportFrom/ClassDef/FunctionDef/Call/
Name, and for every other kind the unfolding of
`ast.NodeVisitor.generic_visit`, which visits all child nodes in field
order. -/
def visit (node : Obj) (a : Ast) : Obj :=
  match a with
  | Ast.importStmt names =>
      names.foldl (fun nd nm => appendKey nd "imports" (JVal.str nm)) node
  | Ast.importFrom names =>
      names.foldl (fun nd nm => appendKey nd "imports" (JVal.str nm)) node
  | Ast.classDef name bases body =>
      let child := setKey (setKey ([] : Obj) "name" (JVal.str name))
        "bases" (JVal.arr (bases.filterMap baseName))
      appendKey node "classes" (JVal.obj (visitList child body))
  | Ast.functionDef name args body =>
      let child := setKey (setKey ([] : Obj) "name" (JVal.str name))
        "args" (JVal.arr (args.map JVal.str))
      appendKey node "functions" (JVal.obj (visitList child body))
  | Ast.callExpr f args kws =>
      appendKey node "statements" (JVal.obj (callObj f args kws))
  | Ast.nameExpr id ctx =>
      appendKey node "statements"
        (JVal.obj [("name", JVal.str id), ("type", JVal.ctx ctx)])
  | Ast.module body => visitList node body
  | Ast.exprStmt v => visit node v
  | Ast.assign targets v => visit (visitList node targets) v
  | Ast.ifStmt t body orelse => visitList (visitList (visit node t) body) orelse
  | Ast.forStmt tgt iter body orelse =>
      visitList (visitList (visit (visit node tgt) iter) body) orelse
  | Ast.whileStmt t body orelse =>
      visitList (visitList (visit node t) body) orelse
  | Ast.returnStmt (some v) => visit node v
  | Ast.returnStmt none => node
  | Ast.passStmt => node
  | Ast.attributeExpr v _ _ => visit node v
  | Ast.numExpr _ => node
  | Ast.strExpr _ => node
  | Ast.binOp l r => visit (visit node l) r
termination_by sizeOf a
decreasing_by
  all_goals simp_wf
  all_goals omega

/-- The class/function body loop: `for ast_child_node in ast_node.body:
parse_node(ast_child_node, node)` — each child is visited into the same
accumulator (a fresh `Analyzer` wrapping the same dict). -/
def visitList (node : Obj) (body : List Ast) : Obj :=
  match body with
  | [] => node
  | a :: rest => visitList (visit node a) rest
termination_by sizeOf body
decreasing_by
  all_goals simp_wf
  all_goals omega

/-- The dictionary `visit_Call` builds for one call expression: `type`,
optionally `func`, then `args` (classified arguments) and `keywords`
(keyword names only). -/
def callObj (f : Ast) (args : List Ast) (kws : List (Option String × Ast)) : Obj :=
  let n : Obj := [("type", JVal.str "function_call")]
  let n := setFunc n f
  let n := setKey n "args" (JVal.arr (classifyArgs args))
  setKey n "keywords" (JVal.arr (kws.map kwName))
termination_by sizeOf f + sizeOf args
decreasing_by
  all_goals simp_wf
  all_goals (have hf : 0 < sizeOf f := by cases f <;> simp_arith
             omega)

/-- The argument loop of `visit_Call`, in order, dropping unclassifiable
arguments. -/
def classifyArgs : List Ast → List JVal
  | [] => []
  | a :: rest =>
      match classifyArg a with
      | some v => v :: classifyArgs rest
      | none => classifyArgs rest
termination_by args => sizeOf args
decreasing_by
  all_goals simp_wf
  all_goals omega

/-- Classification of one call argument: a `Name` yields its identifier, a
nested `Call` is run through `parse_node(arg, defaultdict(list))` — which
dispatches to `visit_Call` and appends the nested call object to the fresh
dict's `statements` list — a `Num`/`Str` literal yields its value, and any
other shape is dropped. -/
def classifyArg : Ast → Option JVal
  | Ast.nameExpr id _ => some (JVal.str id)
  | Ast.callExpr f args kws =>
      some (JVal.obj [("statements", JVal.arr [JVal.obj (callObj f args kws)])])
  | Ast.numExpr n => some (JVal.int n)
  | Ast.strExpr s => some (JVal.str s)
  | _ => none
termination_by a => sizeOf a
decreasing_by
  all_goals simp_wf
  all_goals omega

end

/-- `parse_node(ast_node, node)`: wrap the accumulator in a fresh `Analyzer`,
visit the node, return the accumulator. -/
def parse_node (ast_node : Ast) (node : Obj) : Obj := visit node ast_node

/-- Failures that escape the analysis call: a parse failure raised by the
external `ast.parse` front-end, or a failure of the external `git` clone
step. -/
inductive Err where
  | parseFailure (msg : String)
  | cloneFailure (msg : String)

/-- Outcome of the external parser front-end `ast.parse` on one file's
contents. -/
abbrev Parsed := Except Err Ast

/-- `file_name.endswith('.py')`, computed on the underlying character
list. -/
def endsWithPy (s : String) : Bool :=
  match s.toList.reverse with
  | 'y' :: 'p' :: '.' :: _ => true
  | _ => false

/-- `process_regular_file`: a non-`.py` path returns Python `None` before any
read; otherwise the file is read and parsed (a parse failure propagates
uncaught) and the tree is analyzed into a fresh `defaultdict(list)`. -/
def process_regular_file (fileName : String) (parsed : Parsed) :
    Except Err (Option Obj) :=
  if endsWithPy fileName then
    match parsed with
    | Except.error e => Except.error e
    | Except.ok tree => Except.ok (some (parse_node tree []))
  else Except.ok none

/-- A filesystem tree as enumerated by the directory walk: each file carries
the outcome the external parser front-end would produce for its contents. -/
inductive FSTree where
  | file (name : String) (parsed : Parsed)
  | dir (name : String) (children : List FSTree)

/-- Relative-path join: `os.path.relpath`/`os.path.join` arithmetic for the
walk, with `""` standing for the walk root itself. -/
def joinRel (p n : String) : String := if p = "" then n else p ++ "/" ++ n

/-- `glob.iglob` with pattern `*` does not match names beginning with a
dot. -/
def globVisible (name : String) : Bool :=
  match name.toList with
  | '.' :: _ => false
  | _ => true

/-- `process_directory(root_name, real_name)` over the enumerated children:
`.py` files are analyzed and augmented with `short_name` / `name` /
`full_name`; subdirectories whose root-relative name is in the exclusion set
are skipped; other subdirectories are walked recursively and contribute a
single-key entry only when the recursive result is non-empty.  `rel` is the
root-relative path of the directory being walked (`""` at the root) and
`rootAbs` the walk root, so `joinRel rootAbs (joinRel rel n)` is the opened
path of child `n`. -/
def process_directory (ignore : List String) (rootAbs rel : String) :
    List FSTree → Except Err (List JVal)
  | [] => Except.ok []
  | FSTree.file n parsed :: rest =>
      if globVisible n && endsWithPy n then
        match parsed with
        | Except.error e => Except.error e
        | Except.ok tree =>
            let r := parse_node tree []
            let r := setKey r "short_name" (JVal.str n)
            let r := setKey r "name" (JVal.str (joinRel rel n))
            let r := setKey r "full_name" (JVal.str (joinRel rootAbs (joinRel rel n)))
            match process_directory ignore rootAbs rel rest with
            | Except.error e => Except.error e
            | Except.ok es => Except.ok (JVal.obj r :: es)
      else process_directory ignore rootAbs rel rest
  | FSTree.dir n children :: rest =>
      if globVisible n && !(ignore.contains (joinRel rel n)) then
        match process_directory ignore rootAbs (joinRel rel n) children with
        | Except.error e => Except.error e
        | Except.ok [] => process_directory ignore rootAbs rel rest
        | Except.ok cn =>
            match process_directory ignore rootAbs rel rest with
            | Except.error e => Except.error e
            | Except.ok es =>
                Except.ok (JVal.obj [(joinRel rel n, JVal.arr cn)] :: es)
      else process_directory ignore rootAbs rel rest
termination_by trees => sizeOf trees
decreasing_by
  all_goals simp_wf
  all_goals omega

mutual

/-- The directory-wrapper keys occurring in a walk result, recursively: a
subdirectory contributes a single-key dictionary from its root-relative name
to its child entries, while a file entry always carries at least the three
augmentation keys and is never a single-key dictionary. -/
def dirKeysV : JVal → List String
  | JVal.obj [(k, JVal.arr xs)] => k :: dirKeysL xs
  | _ => []
termination_by v => sizeOf v
decreasing_by
  all_goals simp_wf
  all_goals omega

/-- Directory-wrapper keys of a list of walk entries. -/
def dirKeysL : List JVal → List String
  | [] => []
  | v :: rest => dirKeysV v ++ dirKeysL rest
termination_by vs => sizeOf vs
decreasing_by
  all_goals simp_wf
  all_goals omega

end

/-- Whether the walk of these children will attempt to parse some `.py` file
whose parse fails: mirrors exactly which children `process_directory`
visits (glob visibility, extension filter, exclusion set). -/
def hasFailingPy (ignore : List String) (rel : String) : List FSTree → Bool
  | [] => false
  | FSTree.file n parsed :: rest =>
      ((globVisible n && endsWithPy n) &&
        (match parsed with | Except.error _ => true | Except.ok _ => false))
      || hasFailingPy ignore rel rest
  | FSTree.dir n children :: rest =>
      ((globVisible n && !(ignore.contains (joinRel rel n))) &&
        hasFailingPy ignore (joinRel rel n) children)
      || hasFailingPy ignore rel rest
termination_by trees => sizeOf trees
decreasing_by
  all_goals simp_wf
  all_goals omega

/-- The characters before the first `:`, or `none` when there is no `:`. -/
def takeUntilColon : List Char → Option (List Char)
  | [] => none
  | ':' :: _ => some []
  | c :: rest => (takeUntilColon rest).map (fun l => c :: l)

/-- The `scheme` component of `urllib.parse.urlparse`: the text before the
first `:`, lowercased, when it is non-empty, begins with a letter, and
contains only letters, digits, `+`, `-`, `.`; otherwise the empty string. -/
def schemeOf (s : String) : String :=
  match takeUntilColon s.toList with
  | none => ""
  | some [] => ""
  | some (c :: pre) =>
      if c.isAlpha
          ∧ (c :: pre).all (fun d => d.isAlphanum || d = '+' || d = '-' || d = '.')
      then String.mk ((c :: pre).map Char.toLower) else ""

/-- `s.rsplit('/', 1)[-1]`: everything after the final `/`, or all of `s`
when `s` contains no `/`. -/
def rsplitLast (s : String) : String :=
  String.mk ((s.toList.reverse.takeWhile (fun c => c ≠ '/')).reverse)

/-- The external collaborators of the dispatcher, supplied as oracles: the
filesystem predicates, the `ast.parse` outcome per path, the directory
listing per path, `os.path.basename`, the configured exclusion set
`files_to_ignore` (static configuration imported from outside the analyzed
module), the name `tempfile.TemporaryDirectory` will allocate, and the
outcome of `git.Repo.clone_from` per (url, directory). -/
structure World where
  isFile : String → Bool
  isDir : String → Bool
  parseOf : String → Parsed
  childrenOf : String → List FSTree
  basename : String → String
  ignore : List String
  freshTemp : String
  cloneResult : String → String → Except Err Unit

/-- `parse_source_file` without its URL arm (the URL arm delegates to
`process_url` below; the temporary clone directory that `process_url` feeds
back into `parse_source_file` is a filesystem path, never an `http(s)` URL,
so that recursive call always lands in this core).  The Python default
`project_name=None` and the `if not project_name` truthiness test (which also
replaces an empty string) are modelled explicitly. -/
def parse_source_file_core (w : World) (fileName : String)
    (projectName : Option String) : Except Err (Option JVal) :=
  if w.isFile fileName then
    match process_regular_file fileName (w.parseOf fileName) with
    | Except.error e => Except.error e
    | Except.ok none => Except.ok none
    | Except.ok (some r) => Except.ok (some (JVal.obj r))
  else if w.isDir fileName then
    let pname :=
      match projectName with
      | some p => if p = "" then w.basename fileName else p
      | none => w.basename fileName
    match process_directory w.ignore fileName "" (w.childrenOf fileName) with
    | Except.error e => Except.error e
    | Except.ok es => Except.ok (some (JVal.obj [(pname, JVal.arr es)]))
  else Except.ok none

/-- `process_url`: `tempfile.TemporaryDirectory` allocates a fresh directory
and its context manager removes it on every exit path (normal return, clone
failure, or analysis failure); inside the block the repository is cloned and
`parse_source_file` is re-entered on the local copy with the project name
`git_url.rsplit('/', 1)[-1]`.  The second component is the list of live
temporary directories before/after the call. -/
def process_url (w : World) (tempDirs : List String) (gitUrl : String) :
    Except Err (Option JVal) × List String :=
  let d := w.freshTemp
  let live := d :: tempDirs
  let result :=
    match w.cloneResult gitUrl d with
    | Except.error e => Except.error e
    | Except.ok _ => parse_source_file_core w d (some (rsplitLast gitUrl))
  (result, live.erase d)

/-- `parse_source_file(file_name)` as invoked by the request layer (no
explicit project name): URL dispatch first, then existing file, then
existing directory; any other locator falls off the end of the function,
returning the implicit Python `None` without raising. -/
def parse_source_file (w : World) (tempDirs : List String) (fileName : String) :
    Except Err (Option JVal) × List String :=
  if schemeOf fileName = "http" ∨ schemeOf fileName = "https" then
    process_url w tempDirs fileName
  else (parse_source_file_core w fileName none, tempDirs)

/-- `json.dumps` escaping of one string character. -/
def escChar (c : Char) : String :=
  if c = '"' then "\\\""
  else if c = '\\' then "\\\\"
  else if c = '\n' then "\\n"
  else if c = '\t' then "\\t"
  else if c = '\r' then "\\r"
  else String.singleton c

/-- A JSON string literal with `json.dumps` escaping. -/
def quoteStr (s : String) : String :=
  "\"" ++ String.join (s.toList.map escChar) ++ "\""

mutual

/-- `json.dumps(v, separators=(',', ':'))`: compact serialization with no
whitespace after separators; `none` models the `TypeError` raised on a value
with no JSON representation (the raw `ast` context objects that `visit_Name`
stores). -/
def jsonOf : JVal → Option String
  | JVal.null => some "null"
  | JVal.str s => some (quoteStr s)
  | JVal.int n => some (toString n)
  | JVal.ctx _ => none
  | JVal.arr xs =>
      match jsonArr xs with
      | some body => some ("[" ++ body ++ "]")
      | none => none
  | JVal.obj fs =>
      match jsonObj fs with
      | some body => some ("\x7b" ++ body ++ "\x7d")
      | none => none
termination_by v => sizeOf v
decreasing_by
  all_goals simp_wf
  all_goals omega

/-- Comma-joined serialization of array elements. -/
def jsonArr : List JVal → Option String
  | [] => some ""
  | [v] => jsonOf v
  | v :: rest =>
      match jsonOf v, jsonArr rest with
      | some h, some t => some (h ++ "," ++ t)
      | _, _ => none
termination_by vs => sizeOf vs
decreasing_by
  all_goals simp_wf
  all_goals omega

/-- Comma-joined serialization of dictionary entries, keys in insertion
order. -/
def jsonObj : List (String × JVal) → Option String
  | [] => some ""
  | [(k, v)] =>
      match jsonOf v with
      | some t => some (quoteStr k ++ ":" ++ t)
      | none => none
  | (k, v) :: rest =>
      match jsonOf v, jsonObj rest with
      | some h, some t => some (quoteStr k ++ ":" ++ h ++ "," ++ t)
      | _, _ => none
termination_by fs => sizeOf fs
decreasing_by
  all_goals simp_wf
  all_goals omega

end

/-- `to_json(data) = json.dumps(data, separators=(',', ':'))`. -/
def to_json (v : JVal) : Option String := jsonOf v

/-- A family of call expressions nested through the argument position:
`nestCall 0` is `f()`, `nestCall (n+1)` is `f(nestCall n)` — syntactic call
nesting depth `n + 1`. -/
def nestCall : Nat → Ast
  | 0 => Ast.callExpr (Ast.nameExpr "f" Ctx.load) [] []
  | n + 1 => Ast.callExpr (Ast.nameExpr "f" Ctx.load) [nestCall n] []

/-- The call dictionary the analyzer builds for `nestCall n`, written out:
each level embeds the next as a one-key `statements` fragment inside
`args`. -/
def nestDict : Nat → JVal
  | 0 => JVal.obj [("type", JVal.str "function_call"), ("func", JVal.str "f"),
      ("args", JVal.arr []), ("keywords", JVal.arr [])]
  | n + 1 => JVal.obj [("type", JVal.str "function_call"), ("func", JVal.str "f"),
      ("args", JVal.arr [JVal.obj [("statements", JVal.arr [nestDict n])]]),
      ("keywords", JVal.arr [])]

mutual

/-- Syntactic call-nesting depth of an expression along call-argument
positions: a call is one deeper than its deepest call argument; everything
else has depth zero. -/
def callNestDepth : Ast → Nat
  | Ast.callExpr _ args _ => 1 + callNestDepthL args
  | _ => 0
termination_by a => sizeOf a
decreasing_by
  all_goals simp_wf
  all_goals omega

/-- Deepest call-nesting depth among a list of argument expressions. -/
def callNestDepthL : List Ast → Nat
  | [] => 0
  | a :: rest => max (callNestDepth a) (callNestDepthL rest)
termination_by as => sizeOf as
decreasing_by
  all_goals simp_wf
  all_goals omega

end

mutual

/-- Nesting depth of call dictionaries inside an analyzer value: a call
dictionary (recognized by its `args` entry) is one deeper than its deepest
argument; an embedded fragment (recognized by its `statements` entry) is as
deep as its deepest element. -/
def callDictDepth : JVal → Nat
  | JVal.obj fs => callDictDepthF fs
  | _ => 0
termination_by v => sizeOf v
decreasing_by
  all_goals simp_wf
  all_goals omega

/-- Field scan for `callDictDepth`. -/
def callDictDepthF : List (String × JVal) → Nat
  | [] => 0
  | ("args", JVal.arr xs) :: _ => 1 + callDictDepthL xs
  | ("statements", JVal.arr xs) :: _ => callDictDepthL xs
  | _ :: rest => callDictDepthF rest
termination_by fs => sizeOf fs
decreasing_by
  all_goals simp_wf
  all_goals omega

/-- Deepest call dictionary among a list of analyzer values. -/
def callDictDepthL : List JVal → Nat
  | [] => 0
  | v :: rest => max (callDictDepth v) (callDictDepthL rest)
termination_by vs => sizeOf vs
decreasing_by
  all_goals simp_wf
  all_goals omega

end

/-- A world in which the locator resolves to nothing: no file, no
directory. -/
def worldNoMatch : World where
  isFile := fun _ => false
  isDir := fun _ => false
  parseOf := fun _ => Except.error (Err.parseFailure "unused")
  childrenOf := fun _ => []
  basename := fun _ => ""
  ignore := []
  freshTemp := "/tmp/clone0"
  cloneResult := fun _ _ => Except.ok ()

/-- A world in which the remote clone succeeds and produces an empty
repository in the temporary directory. -/
def worldCloneOk : World where
  isFile := fun _ => false
  isDir := fun s => s == "/tmp/clone0"
  parseOf := fun _ => Except.error (Err.parseFailure "unused")
  childrenOf := fun _ => []
  basename := fun s => s
  ignore := []
  freshTemp := "/tmp/clone0"
  cloneResult := fun _ _ => Except.ok ()

/-- A world in which the remote clone fails. -/
def worldCloneFail : World where
  isFile := fun _ => false
  isDir := fun s => s == "/tmp/clone0"
  parseOf := fun _ => Except.error (Err.parseFailure "unused")
  childrenOf := fun _ => []
  basename := fun s => s
  ignore := []
  freshTemp := "/tmp/clone0"
  cloneResult := fun _ _ => Except.error (Err.cloneFailure "remote unreachable")

/-!  Helper lemmas shared by the claim theorems below. -/

/-- Looking up a key immediately after assigning it yields the assigned
value. -/
theorem lookupKey_setKey (o : Obj) (k : String) (v : JVal) :
    lookupKey k (setKey o k v) = some v := by
  induction o with
  | nil => simp [setKey, lookupKey]
  | cons p rest ih =>
      obtain ⟨k', w⟩ := p
      by_cases h : k' = k
      · simp [setKey, lookupKey, h]
      · simp [setKey, lookupKey, h, ih]

/-- Assigning one key leaves lookups of other keys unchanged. -/
theorem lookupKey_setKey_ne (o : Obj) (k k' : String) (v : JVal) (h : k ≠ k') :
    lookupKey k (setKey o k' v) = lookupKey k o := by
  induction o with
  | nil => simp [setKey, lookupKey, h, Ne.symm h]
  | cons p rest ih =>
      obtain ⟨k0, w⟩ := p
      by_cases h0 : k0 = k'
      · simp [setKey, lookupKey, h0, Ne.symm h]
      · simp [setKey, lookupKey, h0, ih]

/-- Dictionary assignment never produces an empty dictionary. -/
theorem setKey_ne_nil (o : Obj) (k : String) (v : JVal) : setKey o k v ≠ [] := by
  cases o with
  | nil => simp [setKey]
  | cons p rest =>
      obtain ⟨k', w⟩ := p
      by_cases h : k' = k <;> simp [setKey, h]

/-- If assigning a string value yields a one-entry dictionary, that entry
holds the assigned string. -/
theorem setKey_eq_singleton (r : Obj) (k s k0 : String) (v0 : JVal)
    (h : setKey r k (JVal.str s) = [(k0, v0)]) : v0 = JVal.str s := by
  match r with
  | [] =>
      simp [setKey] at h
      exact h.2.symm
  | (k1, w) :: rest =>
      by_cases h1 : k1 = k
      · simp [setKey, h1] at h
        exact h.1.2.symm
      · simp [setKey, h1] at h
        exact absurd h.2 (setKey_ne_nil rest k _)

/-- Unfolding lemma for `dirKeysL` on `[]`. -/
theorem dirKeysL_nil : dirKeysL [] = [] := by simp [dirKeysL]

/-- Unfolding lemma for `dirKeysL` on a cons. -/
theorem dirKeysL_cons (v : JVal) (rest : List JVal) :
    dirKeysL (v :: rest) = dirKeysV v ++ dirKeysL rest := by simp [dirKeysL]

/-- A directory wrapper entry contributes its key and its children's keys. -/
theorem dirKeysV_wrap (k : String) (xs : List JVal) :
    dirKeysV (JVal.obj [(k, JVal.arr xs)]) = k :: dirKeysL xs := by
  simp [dirKeysV]

/-- A file entry — a report whose last augmentation is the string-valued
`full_name` assignment — is never a directory wrapper, so it contributes no
directory keys. -/
theorem dirKeysV_fileEntry (o : Obj) (k s : String) :
    dirKeysV (JVal.obj (setKey o k (JVal.str s))) = [] := by
  rcases hr : setKey o k (JVal.str s) with _ | ⟨⟨k0, v0⟩, rest⟩
  · exact absurd hr (setKey_ne_nil o k _)
  · rcases rest with _ | ⟨p2, rest2⟩
    · have hv := setKey_eq_singleton o k s k0 v0 hr
      subst hv
      simp [dirKeysV]
    · simp [dirKeysV]

/-- A child file that the glob/extension filter rejects contributes
nothing to the walk. -/
theorem walk_skip_file (ignore : List String) (rootAbs rel n : String)
    (parsed : Parsed) (rest : List FSTree)
    (hcond : ¬((globVisible n && endsWithPy n) = true)) :
    process_directory ignore rootAbs rel (FSTree.file n parsed :: rest) =
      process_directory ignore rootAbs rel rest := by
  rw [process_directory.eq_def]
  simp
  intro h1 h2
  exact absurd (by simp [h1, h2]) hcond

/-- A child directory that is hidden from the glob or is in the exclusion
set contributes nothing to the walk. -/
theorem walk_skip_dir (ignore : List String) (rootAbs rel n : String)
    (children rest : List FSTree)
    (hcond : ¬((globVisible n && !(ignore.contains (joinRel rel n))) = true)) :
    process_directory ignore rootAbs rel (FSTree.dir n children :: rest) =
      process_directory ignore rootAbs rel rest := by
  rw [process_directory.eq_def]
  simp
  intro h1 h2
  exact absurd (by simp [h1, h2]) hcond

/-- If the walk will visit a `.py` file whose parse fails, the whole walk
returns that failure. -/
theorem walk_error_of_hasFailingPy (ignore : List String) (rootAbs : String) :
    ∀ rel trees, hasFailingPy ignore rel trees = true →
      ∃ e, process_directory ignore rootAbs rel trees = Except.error e := by
  intro rel trees
  induction rel, trees using process_directory.induct ignore rootAbs with
  | case1 rel =>
      intro h
      rw [hasFailingPy] at h
      cases h
  | case2 rel n rest hcond e =>
      intro h
      exact ⟨e, by simp [process_directory, hcond]⟩
  | case3 rel n rest hcond tree e hrest ih =>
      intro h
      exact ⟨e, by simp [process_directory, hcond, hrest]⟩
  | case4 rel n rest hcond tree es hrest ih =>
      intro h
      simp [hasFailingPy, hcond] at h
      obtain ⟨e, he⟩ := ih h
      rw [he] at hrest
      cases hrest
  | case5 rel n parsed rest hcond ih =>
      intro h
      rw [hasFailingPy.eq_def] at h
      simp at h
      rcases h with ⟨h1, _⟩ | h
      · exact absurd (by simp [h1.1, h1.2]) hcond
      · obtain ⟨e, he⟩ := ih h
        exact ⟨e, by rw [walk_skip_file ignore rootAbs rel n parsed rest hcond]; exact he⟩
  | case6 rel n children rest hcond e hchild ihc =>
      intro h
      have hc := hcond
      simp at hc
      refine ⟨e, ?_⟩
      simp [process_directory, hchild]
      intro hx
      exact absurd (hx hc.1) hc.2
  | case7 rel n children rest hcond hchild ihc ihr =>
      intro h
      simp [hasFailingPy] at h
      rcases h with ⟨_, h⟩ | h
      · obtain ⟨e, he⟩ := ihc h
        rw [he] at hchild
        cases hchild
      · obtain ⟨e, he⟩ := ihr h
        exact ⟨e, by simp [process_directory, hcond, hchild, he]⟩
  | case8 rel n children rest hcond cn hne hchild e hrest ihc ihr =>
      intro h
      refine ⟨e, ?_⟩
      rcases cn with _ | ⟨c0, crest⟩
      · exact absurd rfl hne
      · simp [process_directory, hcond, hchild, hrest]
  | case9 rel n children rest hcond cn hne hchild es hrest ihc ihr =>
      intro h
      simp [hasFailingPy] at h
      rcases h with ⟨_, h⟩ | h
      · obtain ⟨e, he⟩ := ihc h
        rw [he] at hchild
        cases hchild
      · obtain ⟨e, he⟩ := ihr h
        rw [he] at hrest
        cases hrest
  | case10 rel n children rest hcond ihr =>
      intro h
      rw [hasFailingPy.eq_def] at h
      simp at h
      rcases h with ⟨h1, _⟩ | h
      · exact absurd (by simp [h1.1, h1.2]) hcond
      · obtain ⟨e, he⟩ := ihr h
        exact ⟨e, by rw [walk_skip_dir ignore rootAbs rel n children rest hcond]; exact he⟩

/-- Every directory-wrapper key in a successful walk result is outside the
exclusion set. -/
theorem walk_dirKeys_not_ignored (ignore : List String) (rootAbs : String) :
    ∀ rel trees entries,
      process_directory ignore rootAbs rel trees = Except.ok entries →
      ∀ k, k ∈ dirKeysL entries → k ∉ ignore := by
  intro rel trees
  induction rel, trees using process_directory.induct ignore rootAbs with
  | case1 rel =>
      intro entries h k hk
      simp [process_directory] at h
      subst h
      simp [dirKeysL] at hk
  | case2 rel n rest hcond e =>
      intro entries h
      simp [process_directory, hcond] at h
  | case3 rel n rest hcond tree e hrest ih =>
      intro entries h
      simp [process_directory, hcond, hrest] at h
  | case4 rel n rest hcond tree es hrest ih =>
      intro entries h k hk
      simp [process_directory, hcond, hrest] at h
      subst h
      rw [dirKeysL_cons, dirKeysV_fileEntry] at hk
      simp at hk
      exact ih es hrest k hk
  | case5 rel n parsed rest hcond ih =>
      intro entries h
      rw [walk_skip_file ignore rootAbs rel n parsed rest hcond] at h
      exact ih entries h
  | case6 rel n children rest hcond e hchild ihc =>
      intro entries h
      have hc := hcond
      simp at hc
      rw [process_directory.eq_def] at h
      simp [hchild, hc.1, hc.2] at h
  | case7 rel n children rest hcond hchild ihc ihr =>
      intro entries h
      have hc := hcond
      simp at hc
      rw [process_directory.eq_def] at h
      simp [hchild, hc.1, hc.2] at h
      exact ihr entries h
  | case8 rel n children rest hcond cn hne hchild e hrest ihc ihr =>
      intro entries h
      have hc := hcond
      simp at hc
      rcases cn with _ | ⟨c0, crest⟩
      · exact absurd rfl hne
      · rw [process_directory.eq_def] at h
        simp [hchild, hrest, hc.1, hc.2] at h
  | case9 rel n children rest hcond cn hne hchild es hrest ihc ihr =>
      intro entries h k hk
      have hc := hcond
      simp at hc
      rcases cn with _ | ⟨c0, crest⟩
      · exact absurd rfl hne
      · rw [process_directory.eq_def] at h
        simp [hchild, hrest, hc.1, hc.2] at h
        subst h
        rw [dirKeysL_cons, dirKeysV_wrap] at hk
        simp at hk
        rcases hk with hk | hk | hk
        · subst hk
          exact hc.2
        · exact ihc (c0 :: crest) hchild k hk
        · exact ihr es hrest k hk
  | case10 rel n children rest hcond ihr =>
      intro entries h
      rw [walk_skip_dir ignore rootAbs rel n children rest hcond] at h
      exact ihr entries h

/-- A non-excluded subdirectory whose recursive walk is empty contributes
no entry. -/
theorem walk_empty_child_no_entry (ignore : List String) (rootAbs rel n : String)
    (children rest : List FSTree)
    (h : process_directory ignore rootAbs (joinRel rel n) children = Except.ok []) :
    process_directory ignore rootAbs rel (FSTree.dir n children :: rest) =
      process_directory ignore rootAbs rel rest := by
  by_cases hc : (globVisible n && !(ignore.contains (joinRel rel n))) = true
  · rw [process_directory.eq_def]
    simp [hc, h]
  · exact walk_skip_dir ignore rootAbs rel n children rest hc

/-- The classification of the nested-call family: each `nestCall n` argument
is embedded as a fresh one-key `statements` report holding `nestDict n`. -/
theorem classifyArg_nestCall (n : Nat) :
    classifyArg (nestCall n) =
      some (JVal.obj [("statements", JVal.arr [nestDict n])]) := by
  induction n with
  | zero => simp [nestCall, nestDict, classifyArg, callObj, classifyArgs, setFunc, setKey]
  | succ n ih =>
      simp [nestCall, nestDict, classifyArg, callObj, classifyArgs, setFunc, setKey, ih]

/-- Analyzing `nestCall n` into a fresh report yields exactly the written-out
nested dictionary family. -/
theorem parse_node_nestCall (n : Nat) :
    parse_node (nestCall n) [] = [("statements", JVal.arr [nestDict n])] := by
  cases n with
  | zero => simp [nestCall, nestDict, parse_node, visit, callObj, classifyArgs,
      classifyArg, setFunc, setKey, appendKey]
  | succ m =>
      have h := classifyArg_nestCall m
      simp [nestCall, nestDict, parse_node, visit, callObj, classifyArgs,
        setFunc, setKey, appendKey, h]

/-- The produced fragment family has call-dictionary depth `n + 1`. -/
theorem callDictDepth_nestDict (n : Nat) : callDictDepth (nestDict n) = n + 1 := by
  induction n with
  | zero => simp [nestDict, callDictDepth, callDictDepthF, callDictDepthL]
  | succ n ih =>
      simp [nestDict, callDictDepth, callDictDepthF, callDictDepthL, ih]
      omega

/-- The syntactic family has call-nesting depth `n + 1`. -/
theorem callNestDepth_nestCall (n : Nat) : callNestDepth (nestCall n) = n + 1 := by
  induction n with
  | zero => simp [nestCall, callNestDepth, callNestDepthL]
  | succ n ih =>
      simp [nestCall, callNestDepth, callNestDepthL, ih]
      omega

/-!  Claim theorems. -/

/-- C1 counterexample: a module whose only statement is the assignment
`x = foo()` — a node kind with no explicit handler — nevertheless yields a
report whose `statements` list contains both the name record for `x` and the
call record for `foo()`, because the visitor's generic fallback traverses the
assignment's children.  The claim asserts such nested expressions contribute
nothing. -/
theorem C1_counterexample :
    visit [] (Ast.module [Ast.assign [Ast.nameExpr "x" Ctx.store]
        (Ast.callExpr (Ast.nameExpr "foo" Ctx.load) [] [])]) =
      [("statements", JVal.arr
        [JVal.obj [("name", JVal.str "x"), ("type", JVal.ctx Ctx.store)],
         JVal.obj [("type", JVal.str "function_call"), ("func", JVal.str "foo"),
                   ("args", JVal.arr []), ("keywords", JVal.arr [])]])] := by
  simp [visit, visitList, callObj, classifyArgs, setFunc, setKey, appendKey]

/-- C1 (amended): for syntax-tree kinds without a `visit_<Kind>` handler the
visitor falls back to `ast.NodeVisitor.generic_visit`, which visits every
child node in field order; consequently Call and Name expressions nested
inside assignments, conditionals, and loops do contribute to the enclosing
Report. -/
theorem C1_generic_visit_traverses_children (node : Obj) (targets : List Ast)
    (v t iter : Ast) (body orelse : List Ast) :
    visit node (Ast.assign targets v) = visit (visitList node targets) v
    ∧ visit node (Ast.ifStmt t body orelse) =
        visitList (visitList (visit node t) body) orelse
    ∧ visit node (Ast.whileStmt t body orelse) =
        visitList (visitList (visit node t) body) orelse
    ∧ visit node (Ast.forStmt v iter body orelse) =
        visitList (visitList (visit (visit node v) iter) body) orelse
    ∧ visit node (Ast.exprStmt t) = visit node t := by
  refine ⟨?_, ?_, ?_, ?_, ?_⟩ <;> simp [visit]

/-- C2 counterexample: analyzing an empty `.py` file through the single-file
path returns an empty dictionary: the `imports` field (like every other
field) is absent, not present as an empty sequence as the claim states. -/
theorem C2_counterexample :
    process_regular_file "empty.py" (Except.ok (Ast.module [])) =
      Except.ok (some ([] : Obj))
    ∧ lookupKey "imports" ([] : Obj) = none := by
  constructor
  · simp [process_regular_file, parse_node, visit, visitList, endsWithPy]
  · simp [lookupKey]

/-- C2 (amended): analyzing an empty source file through the single-file
analysis path returns an empty report dictionary with no fields at all: the
`defaultdict(list)` accumulator creates a key only when something is
appended, so absence of content yields absent fields, and the serialized
result is the empty object. -/
theorem C2_empty_file_empty_report :
    process_regular_file "empty.py" (Except.ok (Ast.module [])) =
      Except.ok (some ([] : Obj)) := by
  simp [process_regular_file, parse_node, visit, visitList, endsWithPy]

/-- C3 counterexample: for the scenario input (`import os` / `class A(Base)`
containing `def f(self, x)` whose body is `bar(1, 'a')`), the top-level
report has no `functions` and no `statements` key at all, contradicting the
claim that every other field is present as an empty sequence. -/
theorem C3_counterexample :
    lookupKey "functions" (parse_node (Ast.module [Ast.importStmt ["os"],
      Ast.classDef "A" [Ast.nameExpr "Base" Ctx.load]
        [Ast.functionDef "f" ["self", "x"]
          [Ast.exprStmt (Ast.callExpr (Ast.nameExpr "bar" Ctx.load)
            [Ast.numExpr 1, Ast.strExpr "a"] [])]]]) []) = none
    ∧ lookupKey "statements" (parse_node (Ast.module [Ast.importStmt ["os"],
      Ast.classDef "A" [Ast.nameExpr "Base" Ctx.load]
        [Ast.functionDef "f" ["self", "x"]
          [Ast.exprStmt (Ast.callExpr (Ast.nameExpr "bar" Ctx.load)
            [Ast.numExpr 1, Ast.strExpr "a"] [])]]]) []) = none := by
  have h : parse_node (Ast.module [Ast.importStmt ["os"],
      Ast.classDef "A" [Ast.nameExpr "Base" Ctx.load]
        [Ast.functionDef "f" ["self", "x"]
          [Ast.exprStmt (Ast.callExpr (Ast.nameExpr "bar" Ctx.load)
            [Ast.numExpr 1, Ast.strExpr "a"] [])]]]) [] =
      [("imports", JVal.arr [JVal.str "os"]),
       ("classes", JVal.arr [JVal.obj
         [("name", JVal.str "A"),
          ("bases", JVal.arr [JVal.str "Base"]),
          ("functions", JVal.arr [JVal.obj
            [("name", JVal.str "f"),
             ("args", JVal.arr [JVal.str "self", JVal.str "x"]),
             ("statements", JVal.arr [JVal.obj
               [("type", JVal.str "function_call"),
                ("func", JVal.str "bar"),
                ("args", JVal.arr [JVal.int 1, JVal.str "a"]),
                ("keywords", JVal.arr [])]])]])]])] := by
    simp [parse_node, visit, visitList, callObj, classifyArgs, classifyArg,
      appendKey, setKey, setFunc, baseName, kwName]
  rw [h]
  constructor <;> simp [lookupKey]

/-- C3 (amended): the scenario input yields exactly the report
`imports=["os"]`, one class node `name="A"`, `bases=["Base"]` containing one
function node `name="f"`, `args=["self","x"]` containing one call record
tagged `type="function_call"` with `func="bar"`, `args=[1,"a"]`,
`keywords=[]`; fields that received no content are absent (not empty), and
the call tag is `function_call` rather than `Call`. -/
theorem C3_scenario_report :
    parse_node (Ast.module [Ast.importStmt ["os"],
      Ast.classDef "A" [Ast.nameExpr "Base" Ctx.load]
        [Ast.functionDef "f" ["self", "x"]
          [Ast.exprStmt (Ast.callExpr (Ast.nameExpr "bar" Ctx.load)
            [Ast.numExpr 1, Ast.strExpr "a"] [])]]]) [] =
      [("imports", JVal.arr [JVal.str "os"]),
       ("classes", JVal.arr [JVal.obj
         [("name", JVal.str "A"),
          ("bases", JVal.arr [JVal.str "Base"]),
          ("functions", JVal.arr [JVal.obj
            [("name", JVal.str "f"),
             ("args", JVal.arr [JVal.str "self", JVal.str "x"]),
             ("statements", JVal.arr [JVal.obj
               [("type", JVal.str "function_call"),
                ("func", JVal.str "bar"),
                ("args", JVal.arr [JVal.int 1, JVal.str "a"]),
                ("keywords", JVal.arr [])]])]])]])] := by
  simp [parse_node, visit, visitList, callObj, classifyArgs, classifyArg,
    appendKey, setKey, setFunc, baseName, kwName]

/-- C4: call-argument classification — an identifier argument contributes
its name string, a numeric or string literal its literal value, a nested
call a recursively analyzed fresh report embedded in place, and any other
argument form nothing; keyword-argument names are collected with values
dropped; and on the family of calls nested through the argument position the
nesting depth of the produced fragments equals the syntactic call-nesting
depth, at every depth `n`. -/
theorem C4_call_argument_classification :
    (∀ id c, classifyArg (Ast.nameExpr id c) = some (JVal.str id))
    ∧ (∀ n, classifyArg (Ast.numExpr n) = some (JVal.int n))
    ∧ (∀ s, classifyArg (Ast.strExpr s) = some (JVal.str s))
    ∧ (∀ f args kws, classifyArg (Ast.callExpr f args kws) =
        some (JVal.obj (parse_node (Ast.callExpr f args kws) [])))
    ∧ (∀ l r, classifyArg (Ast.binOp l r) = none)
    ∧ (∀ v attr c, classifyArg (Ast.attributeExpr v attr c) = none)
    ∧ (∀ node f args kws, visit node (Ast.callExpr f args kws) =
        appendKey node "statements" (JVal.obj (callObj f args kws)))
    ∧ (∀ f args kws, lookupKey "args" (callObj f args kws) =
        some (JVal.arr (classifyArgs args)))
    ∧ (∀ f args kws, lookupKey "keywords" (callObj f args kws) =
        some (JVal.arr (kws.map kwName)))
    ∧ (∀ n, callDictDepth (JVal.obj (parse_node (nestCall n) [])) =
          callNestDepth (nestCall n)
        ∧ callNestDepth (nestCall n) = n + 1) := by
  refine ⟨?_, ?_, ?_, ?_, ?_, ?_, ?_, ?_, ?_, ?_⟩
  · intro id c; simp [classifyArg]
  · intro n; simp [classifyArg]
  · intro s; simp [classifyArg]
  · intro f args kws; simp [classifyArg, parse_node, visit, appendKey]
  · intro l r; simp [classifyArg]
  · intro v attr c; simp [classifyArg]
  · intro node f args kws; simp [visit]
  · intro f args kws
    simp [callObj]
    rw [lookupKey_setKey_ne _ _ _ _ (by decide)]
    exact lookupKey_setKey _ _ _
  · intro f args kws
    simp [callObj]
    exact lookupKey_setKey _ _ _
  · intro n
    constructor
    · rw [parse_node_nestCall, callNestDepth_nestCall]
      simp [callDictDepth, callDictDepthF, callDictDepthL, callDictDepth_nestDict]
    · exact callNestDepth_nestCall n

/-- C5: directory-walk exclusion — every directory-wrapper key appearing at
any depth of a successful walk result lies outside the exclusion set (an
excluded subdirectory is skipped without recursion), and a non-excluded
subdirectory whose recursive result is empty contributes no entry. -/
theorem C5_exclusion_set_invariant :
    (∀ (ignore : List String) (rootAbs rel : String) (trees : List FSTree)
        (entries : List JVal),
        process_directory ignore rootAbs rel trees = Except.ok entries →
        ∀ k, k ∈ dirKeysL entries → k ∉ ignore)
    ∧ (∀ (ignore : List String) (rootAbs rel n : String)
        (children rest : List FSTree),
        process_directory ignore rootAbs (joinRel rel n) children = Except.ok [] →
        process_directory ignore rootAbs rel (FSTree.dir n children :: rest) =
          process_directory ignore rootAbs rel rest) := by
  constructor
  · intro ignore rootAbs rel trees entries h k hk
    exact walk_dirKeys_not_ignored ignore rootAbs rel trees entries h k hk
  · intro ignore rootAbs rel n children rest h
    exact walk_empty_child_no_entry ignore rootAbs rel n children rest h

/-- C5 witness: with exclusion set `["vendor"]`, a root containing `sub`
(with one `.py` file) and `vendor` (with one `.py` file) walks to a single
`sub` entry — `vendor` is absent — `"sub"` is certified outside the
exclusion set by the theorem; and a `dir` child whose recursive result is
empty produces no entry. -/
theorem C5_witness :
    process_directory ["vendor"] "/r" ""
        [FSTree.dir "sub" [FSTree.file "a.py" (Except.ok (Ast.module []))],
         FSTree.dir "vendor" [FSTree.file "b.py" (Except.ok (Ast.module []))]] =
      Except.ok [JVal.obj [("sub", JVal.arr [JVal.obj
        [("short_name", JVal.str "a.py"), ("name", JVal.str "sub/a.py"),
         ("full_name", JVal.str "/r/sub/a.py")]])]]
    ∧ ("sub" ∉ (["vendor"] : List String))
    ∧ process_directory ["vendor"] "/r" ""
        [FSTree.dir "empty" [], FSTree.file "c.py" (Except.ok (Ast.module []))] =
      process_directory ["vendor"] "/r" ""
        [FSTree.file "c.py" (Except.ok (Ast.module []))] := by
  have hpy : endsWithPy "a.py" = true := by decide
  have hgv : globVisible "a.py" = true := by decide
  have hgs : globVisible "sub" = true := by decide
  have hwalk : process_directory ["vendor"] "/r" ""
      [FSTree.dir "sub" [FSTree.file "a.py" (Except.ok (Ast.module []))],
       FSTree.dir "vendor" [FSTree.file "b.py" (Except.ok (Ast.module []))]] =
      Except.ok [JVal.obj [("sub", JVal.arr [JVal.obj
        [("short_name", JVal.str "a.py"), ("name", JVal.str "sub/a.py"),
         ("full_name", JVal.str "/r/sub/a.py")]])]] := by
    simp [process_directory, hpy, hgv, hgs, joinRel, parse_node, visit,
      visitList, setKey, globVisible]
  refine ⟨hwalk, ?_, ?_⟩
  · exact C5_exclusion_set_invariant.1 ["vendor"] "/r" "" _ _ hwalk "sub"
      (by simp [dirKeysL, dirKeysV])
  · have hempty : process_directory ["vendor"] "/r" (joinRel "" "empty")
        ([] : List FSTree) = Except.ok [] := by
      simp [process_directory]
    exact C5_exclusion_set_invariant.2 ["vendor"] "/r" "" "empty" [] _ hempty

/-- C6: a parse failure on any `.py` file the walk visits is fatal for the
whole analysis call — the directory walk returns the error (no per-file
isolation, no partial result), and the dispatcher's directory arm propagates
it uncaught. -/
theorem C6_parse_failure_is_fatal :
    (∀ (ignore : List String) (rootAbs rel : String) (trees : List FSTree),
        hasFailingPy ignore rel trees = true →
        ∃ e, process_directory ignore rootAbs rel trees = Except.error e)
    ∧ (∀ (w : World) (fileName : String),
        w.isFile fileName = false → w.isDir fileName = true →
        hasFailingPy w.ignore "" (w.childrenOf fileName) = true →
        ∃ e, parse_source_file_core w fileName none = Except.error e) := by
  constructor
  · intro ignore rootAbs rel trees h
    exact walk_error_of_hasFailingPy ignore rootAbs rel trees h
  · intro w fileName hf hd h
    obtain ⟨e, he⟩ := walk_error_of_hasFailingPy w.ignore fileName "" (w.childrenOf fileName) h
    exact ⟨e, by simp [parse_source_file_core, hf, hd, he]⟩

/-- C6 witness: a directory with a single `.py` file whose parse fails walks
to an error. -/
theorem C6_witness :
    ∃ e, process_directory [] "/r" ""
        [FSTree.file "bad.py" (Except.error (Err.parseFailure "invalid syntax"))] =
      Except.error e := by
  apply C6_parse_failure_is_fatal.1
  have h1 : endsWithPy "bad.py" = true := by decide
  have h2 : globVisible "bad.py" = true := by decide
  simp [hasFailingPy, h1, h2]

/-- C7 counterexample: a file whose function definition precedes its import
yields a report whose keys — and hence serialized key order — are
`functions` before `imports`, not the declared field order with `imports`
first; the serialization shows the same order. -/
theorem C7_counterexample :
    keysOf (visit [] (Ast.module [Ast.functionDef "f" [] [Ast.passStmt],
        Ast.importStmt ["os"]])) = ["functions", "imports"]
    ∧ to_json (JVal.obj (visit [] (Ast.module
        [Ast.functionDef "f" [] [Ast.passStmt], Ast.importStmt ["os"]]))) =
      some "\x7b\"functions\":[\x7b\"name\":\"f\",\"args\":[]\x7d],\"imports\":[\"os\"]\x7d" := by
  constructor
  · simp [keysOf, visit, visitList, appendKey, setKey]
  · simp [to_json, visit, visitList, appendKey, setKey, jsonOf, jsonArr, jsonObj,
      quoteStr, escChar, String.join]
    decide

/-- C7 (amended): serialization is compact — separators `,` and `:` with no
whitespace — and the key order of a serialized report is the dictionary's
insertion order (the order in which fields were first written during
analysis), which need not equal the fixed declaration order `imports`,
`classes`, `functions`, `statements`. -/
theorem C7_compact_insertion_order :
    (∀ (k1 k2 : String) (v1 v2 : JVal) (s1 s2 : String),
        jsonOf v1 = some s1 → jsonOf v2 = some s2 →
        to_json (JVal.obj [(k1, v1), (k2, v2)]) =
          some ("\x7b" ++ quoteStr k1 ++ ":" ++ s1 ++ "," ++ quoteStr k2 ++ ":" ++ s2 ++ "\x7d"))
    ∧ to_json (JVal.obj (visit [] (Ast.module
        [Ast.functionDef "f" [] [Ast.passStmt], Ast.importStmt ["os"]]))) =
      some "\x7b\"functions\":[\x7b\"name\":\"f\",\"args\":[]\x7d],\"imports\":[\"os\"]\x7d" := by
  constructor
  · intro k1 k2 v1 v2 s1 s2 h1 h2
    simp [to_json, jsonOf, jsonObj, h1, h2, String.append_assoc]
  · simp [to_json, visit, visitList, appendKey, setKey, jsonOf, jsonArr, jsonObj,
      quoteStr, escChar, String.join]
    decide

/-- C7 witness: the general serialization shape applied at a concrete
two-field dictionary. -/
theorem C7_witness :
    to_json (JVal.obj [("a", JVal.null), ("b", JVal.null)]) =
      some "\x7b\"a\":null,\"b\":null\x7d" := by
  have h := C7_compact_insertion_order.1 "a" "b" JVal.null JVal.null "null" "null"
    (by simp [jsonOf]) (by simp [jsonOf])
  rw [h]
  decide

/-- C8 counterexample: a bare identifier statement is recorded with its
context object under the key `type`; no key named `context` exists in the
record. -/
theorem C8_counterexample :
    visit [] (Ast.nameExpr "x" Ctx.load) =
      [("statements", JVal.arr
        [JVal.obj [("name", JVal.str "x"), ("type", JVal.ctx Ctx.load)]])]
    ∧ lookupKey "context"
        [("name", JVal.str "x"), ("type", JVal.ctx Ctx.load)] = none := by
  constructor
  · simp [visit, appendKey]
  · simp [lookupKey]

/-- C8 (amended): for every bare identifier reference visited, the analyzer
appends to the enclosing report's `statements` a record holding the
identifier string under `name` and the raw syntactic-context object
(load/store/del) under a field named `type`, not `context`. -/
theorem C8_name_record (node : Obj) (id : String) (c : Ctx) :
    visit node (Ast.nameExpr id c) =
      appendKey node "statements"
        (JVal.obj [("name", JVal.str id), ("type", JVal.ctx c)]) := by
  simp [visit]

/-- C9: the ephemeral clone directory is removed on every exit path — the
set of live temporary directories after `process_url` equals the set before,
whether the clone fails or the analysis runs — and when the clone succeeds
the dispatcher is invoked on the local copy with project name
`rsplitLast gitUrl`, the URL's final path segment. -/
theorem C9_temp_dir_cleanup_and_project_name (w : World) (tempDirs : List String)
    (gitUrl : String) :
    (process_url w tempDirs gitUrl).2 = tempDirs
    ∧ (∀ e, w.cloneResult gitUrl w.freshTemp = Except.error e →
        (process_url w tempDirs gitUrl).1 = Except.error e)
    ∧ (w.cloneResult gitUrl w.freshTemp = Except.ok () →
        (process_url w tempDirs gitUrl).1 =
          parse_source_file_core w w.freshTemp (some (rsplitLast gitUrl))) := by
  refine ⟨?_, ?_, ?_⟩
  · simp [process_url]
  · intro e he; simp [process_url, he]
  · intro hok; simp [process_url, hok]

/-- C9 witness: with a succeeding clone of an empty repository the analysis
returns the one-key mapping named after the URL's final segment and leaves
no temporary directory; with a failing clone the failure propagates and the
temporary directory is still gone. -/
theorem C9_witness :
    ((process_url worldCloneOk [] "http://host/proj.git").1 =
        Except.ok (some (JVal.obj [("proj.git", JVal.arr [])]))
      ∧ (process_url worldCloneOk [] "http://host/proj.git").2 = [])
    ∧ ((process_url worldCloneFail [] "http://host/proj.git").1 =
        Except.error (Err.cloneFailure "remote unreachable")
      ∧ (process_url worldCloneFail [] "http://host/proj.git").2 = []) := by
  have hok := C9_temp_dir_cleanup_and_project_name worldCloneOk [] "http://host/proj.git"
  have hfail := C9_temp_dir_cleanup_and_project_name worldCloneFail [] "http://host/proj.git"
  refine ⟨⟨?_, hok.1⟩, ⟨?_, hfail.1⟩⟩
  · rw [hok.2.2 rfl]
    have hr : rsplitLast "http://host/proj.git" = "proj.git" := by decide
    simp [parse_source_file_core, worldCloneOk, hr, process_directory]
  · exact hfail.2.1 (Err.cloneFailure "remote unreachable") rfl

/-- C10: a locator that is not an `http(s)` URL, not an existing file, and
not an existing directory makes `parse_source_file` fall through all three
arms and return the implicit Python `None` — an absent result, not a raised
error — with the temporary-directory state untouched. -/
theorem C10_unmatched_locator_returns_none (w : World) (tempDirs : List String)
    (fileName : String)
    (h1 : schemeOf fileName ≠ "http") (h2 : schemeOf fileName ≠ "https")
    (h3 : w.isFile fileName = false) (h4 : w.isDir fileName = false) :
    parse_source_file w tempDirs fileName = (Except.ok none, tempDirs) := by
  simp [parse_source_file, parse_source_file_core, h1, h2, h3, h4]

/-- C10 witness: a plain non-existent path resolves to the absent result. -/
theorem C10_witness :
    (schemeOf "no/such/path.txt" ≠ "http" ∧ schemeOf "no/such/path.txt" ≠ "https"
      ∧ worldNoMatch.isFile "no/such/path.txt" = false
      ∧ worldNoMatch.isDir "no/such/path.txt" = false)
    ∧ parse_source_file worldNoMatch [] "no/such/path.txt" = (Except.ok none, []) := by
  refine ⟨⟨by decide, by decide, rfl, rfl⟩, ?_⟩
  exact C10_unmatched_locator_returns_none worldNoMatch [] "no/such/path.txt"
    (by decide) (by decide) rfl rfl

end PyParser
